import Mathlib

/-!
Shallow embedding of `recached` (src/cache.go): a generic self-refreshing
cache `reCached[T]` with operations `New`, `Get`, `Update`, a background
`updateLoop`, and a process-wide registry used by `GlobalCacheUpdate`.

Modelling conventions:
* a producer `func() (T, error)` is a deterministic stream of outcomes,
  indexed by the number of producer invocations performed so far; the Go
  pair `(T, error)` becomes `T × Option E` (`none` = nil error);
* `sync.RWMutex` only serialises access to `value`; in the pure embedding
  every operation is atomic, so the lock field is dropped (lock/unlock
  ordering inside `GlobalCacheUpdate` is modelled separately by an event
  trace, where the spec makes a claim about it);
* the Go heap of cache objects is a list indexed by creation order; the
  global registry `globalCaches` stores those indices, so a registered
  handle aliases the heap entry exactly as the Go pointer does;
* goroutines of `GlobalCacheUpdate` touch pairwise distinct caches, so the
  concurrent fan-out is embedded as its (unique) linearisation: each
  registered handle performs one `Update`.
-/

namespace Recached

/-- Go struct `reCached[T]` (src/cache.go lines 15-20) minus the mutex:
current `value`, the refresh `period`, the producer `updateFunc` (as an
outcome stream), and `calls`, the number of producer invocations performed
so far, which selects the next outcome of the stream. -/
structure ReCached (T : Type) (E : Type) where
  value : T
  period : Nat
  updateFunc : Nat → T × Option E
  calls : Nat

variable {T E : Type}

/-- Go `Update` (src/cache.go lines 62-71): invoke the producer once; if
`err != nil` return at once, leaving the stored value unchanged; otherwise
store the produced value under the write lock. -/
def Update (r : ReCached T E) : ReCached T E :=
  match r.updateFunc r.calls with
  | (_, some _) => { r with calls := r.calls + 1 }
  | (newValue, none) => { r with value := newValue, calls := r.calls + 1 }

/-- Go `Get` (src/cache.go lines 56-60): read the stored value under the
read lock. Embedded as a state transformer so that the (unchanged) state
seen by later callers is explicit in the return. -/
def Get (r : ReCached T E) : ReCached T E × T :=
  (r, r.value)

/-- One arrival of the `select` in `updateLoop` (src/cache.go lines
45-54): either the context is cancelled or the period timer fires. -/
inductive LoopEvent where
  | ctxDone : LoopEvent
  | tick : LoopEvent
  deriving DecidableEq

/-- Go `updateLoop` (src/cache.go lines 45-54) run over a finite sequence
of select arrivals: `ctxDone` returns from the loop permanently, `tick`
performs `r.Update()` and continues waiting. -/
def updateLoop : List LoopEvent → ReCached T E → ReCached T E
  | [], r => r
  | LoopEvent.ctxDone :: _, r => r
  | LoopEvent.tick :: evs, r => updateLoop evs (Update r)

/-- Process-wide state: the heap of cache objects created so far (a cache
is identified by its creation index) and the global registry
`globalCaches` (src/cache.go lines 23-26), which keeps handles in
registration order. -/
structure Sys (T : Type) (E : Type) where
  heap : List (ReCached T E)
  registry : List Nat

/-- Calling `Update` through a handle: the cache object at index `id` is
updated in place, every other heap entry is untouched (Go mutates the
pointed-to struct). An out-of-range index leaves the heap unchanged (it
cannot arise from `New`-produced registries). -/
def updateNth : List (ReCached T E) → Nat → List (ReCached T E)
  | [], _ => []
  | c :: t, 0 => Update c :: t
  | c :: t, Nat.succ n => c :: updateNth t n

/-- The system-level effect of `cache.Update()` on a registered handle. -/
def UpdateAt (s : Sys T E) (id : Nat) : Sys T E :=
  { s with heap := updateNth s.heap id }

/-- The struct literal built at the start of `New` (src/cache.go lines
29-32): `value` is the Go zero value of `T` (`default`), `period` and
`updateFunc` are the arguments, and no producer invocation has happened. -/
def newCache [Inhabited T] (period : Nat)
    (updateFunc : Nat → T × Option E) : ReCached T E :=
  { value := default, period := period, updateFunc := updateFunc, calls := 0 }

/-- Go `New` (src/cache.go lines 28-43): build the struct with the Go zero
value for `value` (`default`) and zero producer invocations, perform one
synchronous `cache.Update()`, start `updateLoop` in a goroutine, append
the cache to `globalCaches` under the registry write lock, and return it.
The returned index is the caller's handle to the new cache. -/
def New [Inhabited T] (s : Sys T E) (period : Nat)
    (updateFunc : Nat → T × Option E) : Nat × Sys T E :=
  let cache := Update (newCache period updateFunc)
  (s.heap.length,
    { heap := s.heap ++ [cache], registry := s.registry ++ [s.heap.length] })

/-- Go `GlobalCacheUpdate` (src/cache.go lines 74-92): under the registry
read lock, spawn one `c.Update()` goroutine per registered handle and wait
for all of them. The goroutines touch pairwise distinct cache objects, so
the run is embedded as each registered handle performing its update. -/
def GlobalCacheUpdate (s : Sys T E) : Sys T E :=
  s.registry.foldl UpdateAt s

/-- Lock and call events inside `GlobalCacheUpdate`, for claims about the
order in which the registry lock is taken and released relative to the
`Update` invocations. -/
inductive RegEvent where
  | rlock : RegEvent
  | spawnUpdate : Nat → RegEvent
  | wgWait : RegEvent
  | runlock : RegEvent
  deriving DecidableEq

/-- Order of the lock and call events in `GlobalCacheUpdate`
(src/cache.go lines 74-92): `RLock()` on entry, one `go c.Update()` per
registered handle in registry order, `wg.Wait()`, and then the deferred
`RUnlock()` as the function returns. -/
def globalCacheUpdateEvents (registry : List Nat) : List RegEvent :=
  RegEvent.rlock ::
    (registry.map RegEvent.spawnUpdate ++ [RegEvent.wgWait, RegEvent.runlock])

/-- Recognises the event that invokes a registered entry's `Update`. -/
def isSpawn : RegEvent → Bool
  | RegEvent.spawnUpdate _ => true
  | _ => false

/-- The lock discipline asserted by the spec: every release of the
registry lock happens before every invocation of an entry's `Update`. -/
def releasedBeforeUpdates (tr : List RegEvent) : Prop :=
  ∀ i j : Fin tr.length,
    tr.get i = RegEvent.runlock → isSpawn (tr.get j) = true → i.val < j.val

/-- Steps of `New` (src/cache.go lines 28-43) in source order: allocate
the struct, synchronous `cache.Update()`, `go cache.updateLoop(ctx)`,
append to `globalCaches`, return. -/
inductive NewStep where
  | allocStruct : NewStep
  | syncRefresh : NewStep
  | startLoop : NewStep
  | register : NewStep
  | ret : NewStep
  deriving DecidableEq

/-- The sequence of steps `New` performs, in source order. -/
def newSteps : List NewStep :=
  [NewStep.allocStruct, NewStep.syncRefresh, NewStep.startLoop,
   NewStep.register, NewStep.ret]

/-- Total number of producer invocations recorded in a heap. -/
def sumCalls (h : List (ReCached T E)) : Nat :=
  (h.map fun c => c.calls).sum

/-- Sample cache whose producer always succeeds, returning `n + 7` on the
`n`-th invocation. -/
def cOk : ReCached Nat Unit :=
  { value := 4, period := 1, updateFunc := fun n => (n + 7, none), calls := 0 }

/-- Sample cache whose producer always fails, returning the pair `(9, err)`. -/
def cErr : ReCached Nat Unit :=
  { value := 4, period := 1, updateFunc := fun _ => (9, some ()), calls := 0 }

/-- Like `cErr` but the failing producer also returns a different value. -/
def cErr2 : ReCached Nat Unit :=
  { value := 4, period := 1, updateFunc := fun _ => (123, some ()), calls := 0 }

/-- Empty system: no caches constructed yet, empty registry. -/
def sysNil : Sys Nat Unit := { heap := [], registry := [] }

/-- System holding one registered cache with a succeeding producer. -/
def sysOne : Sys Nat Unit :=
  { heap := [{ value := 0, period := 1, updateFunc := fun n => (n + 1, none),
               calls := 0 }],
    registry := [0] }

/-- System holding one registered cache with a failing producer. -/
def sysErr : Sys Nat Unit := { heap := [cErr], registry := [0] }

theorem Update_calls (r : ReCached T E) : (Update r).calls = r.calls + 1 := by
  unfold Update
  rcases h : r.updateFunc r.calls with ⟨v, err⟩
  cases err <;> simp

theorem Update_period (r : ReCached T E) : (Update r).period = r.period := by
  unfold Update
  rcases h : r.updateFunc r.calls with ⟨v, err⟩
  cases err <;> simp

theorem Update_updateFunc (r : ReCached T E) :
    (Update r).updateFunc = r.updateFunc := by
  unfold Update
  rcases h : r.updateFunc r.calls with ⟨v, err⟩
  cases err <;> simp

theorem Update_value_of_ok (r : ReCached T E) (v : T)
    (h : r.updateFunc r.calls = (v, none)) : (Update r).value = v := by
  unfold Update
  rw [h]

theorem Update_value_of_err (r : ReCached T E) (e : E)
    (h : (r.updateFunc r.calls).2 = some e) : (Update r).value = r.value := by
  unfold Update
  rcases hu : r.updateFunc r.calls with ⟨v, err⟩
  rw [hu] at h
  simp only at h
  subst h
  simp

theorem updateNth_length :
    ∀ (h : List (ReCached T E)) (i : Nat), (updateNth h i).length = h.length
  | [], _ => rfl
  | _ :: _, 0 => rfl
  | c :: t, Nat.succ n => by simp [updateNth, updateNth_length t n]

theorem updateNth_getElem?_ne :
    ∀ (h : List (ReCached T E)) (i j : Nat), j ≠ i →
      (updateNth h i)[j]? = h[j]?
  | [], _, _, _ => rfl
  | c :: t, 0, 0, hne => absurd rfl hne
  | c :: t, 0, Nat.succ m, _ => by simp [updateNth]
  | c :: t, Nat.succ n, 0, _ => by simp [updateNth]
  | c :: t, Nat.succ n, Nat.succ m, hne => by
      have hne2 : m ≠ n := fun h2 => hne (by rw [h2])
      simp [updateNth, updateNth_getElem?_ne t n m hne2]

theorem updateNth_getElem?_eq :
    ∀ (h : List (ReCached T E)) (i : Nat) (c : ReCached T E), h[i]? = some c →
      (updateNth h i)[i]? = some (Update c)
  | [], i, c, hc => by simp at hc
  | d :: t, 0, c, hc => by
      simp at hc
      subst hc
      simp [updateNth]
  | d :: t, Nat.succ n, c, hc => by
      simp at hc
      simp [updateNth, updateNth_getElem?_eq t n c hc]

theorem updateNth_map_value_of_err :
    ∀ (h : List (ReCached T E)) (i : Nat) (c : ReCached T E) (e : E),
      h[i]? = some c → (c.updateFunc c.calls).2 = some e →
      (updateNth h i).map (fun x => x.value) = h.map (fun x => x.value)
  | [], _, _, _, hc, _ => by simp at hc
  | d :: t, 0, c, e, hc, he => by
      simp at hc
      subst hc
      simp [updateNth, Update_value_of_err d e he]
  | d :: t, Nat.succ n, c, e, hc, he => by
      simp at hc
      simp [updateNth, updateNth_map_value_of_err t n c e hc he]

theorem sumCalls_cons (c : ReCached T E) (t : List (ReCached T E)) :
    sumCalls (c :: t) = c.calls + sumCalls t := by
  simp [sumCalls]

theorem sumCalls_updateNth :
    ∀ (h : List (ReCached T E)) (i : Nat), i < h.length →
      sumCalls (updateNth h i) = sumCalls h + 1
  | [], i, hi => by simp at hi
  | c :: t, 0, _ => by
      simp [updateNth, sumCalls_cons, Update_calls]
      omega
  | c :: t, Nat.succ n, hi => by
      have hn : n < t.length := by simpa using hi
      simp [updateNth, sumCalls_cons, sumCalls_updateNth t n hn]
      omega

theorem UpdateAt_registry (s : Sys T E) (id : Nat) :
    (UpdateAt s id).registry = s.registry := rfl

theorem foldl_UpdateAt_registry :
    ∀ (ids : List Nat) (s : Sys T E),
      (ids.foldl UpdateAt s).registry = s.registry
  | [], s => rfl
  | i :: t, s => by
      rw [List.foldl_cons, foldl_UpdateAt_registry t, UpdateAt_registry]

theorem foldl_UpdateAt_heap_length :
    ∀ (ids : List Nat) (s : Sys T E),
      (ids.foldl UpdateAt s).heap.length = s.heap.length
  | [], s => rfl
  | i :: t, s => by
      rw [List.foldl_cons, foldl_UpdateAt_heap_length t]
      exact updateNth_length s.heap i

theorem foldl_UpdateAt_calls :
    ∀ (ids : List Nat) (s : Sys T E) (id : Nat) (c : ReCached T E),
      s.heap[id]? = some c →
      ∃ d, ((ids.foldl UpdateAt s).heap)[id]? = some d ∧
        d.calls = c.calls + ids.count id
  | [], s, id, c, hc => ⟨c, hc, by simp⟩
  | j :: t, s, id, c, hc => by
      rw [List.foldl_cons]
      by_cases hij : id = j
      · subst hij
        have hc2 : (UpdateAt s id).heap[id]? = some (Update c) :=
          updateNth_getElem?_eq s.heap id c hc
        obtain ⟨d, hd, hcalls⟩ := foldl_UpdateAt_calls t (UpdateAt s id) id (Update c) hc2
        refine ⟨d, hd, ?_⟩
        rw [hcalls, Update_calls]
        simp [List.count_cons]
        omega
      · have hc2 : (UpdateAt s j).heap[id]? = some c := by
          rw [show (UpdateAt s j).heap = updateNth s.heap j from rfl]
          rw [updateNth_getElem?_ne s.heap j id hij]
          exact hc
        obtain ⟨d, hd, hcalls⟩ := foldl_UpdateAt_calls t (UpdateAt s j) id c hc2
        refine ⟨d, hd, ?_⟩
        rw [hcalls]
        simp [List.count_cons, hij]

theorem foldl_UpdateAt_sumCalls :
    ∀ (ids : List Nat) (s : Sys T E),
      (∀ id ∈ ids, id < s.heap.length) →
      sumCalls ((ids.foldl UpdateAt s).heap) = sumCalls s.heap + ids.length
  | [], s, _ => by simp
  | j :: t, s, hvalid => by
      rw [List.foldl_cons]
      have hj : j < s.heap.length := hvalid j (by simp)
      have hrest : ∀ id ∈ t, id < (UpdateAt s j).heap.length := by
        intro id hid
        rw [show (UpdateAt s j).heap = updateNth s.heap j from rfl,
          updateNth_length]
        exact hvalid id (by simp [hid])
      rw [foldl_UpdateAt_sumCalls t (UpdateAt s j) hrest]
      rw [show (UpdateAt s j).heap = updateNth s.heap j from rfl,
        sumCalls_updateNth s.heap j hj]
      simp
      omega

theorem foldl_UpdateAt_values_of_err :
    ∀ (ids : List Nat) (s : Sys T E),
      ids.Nodup →
      (∀ id ∈ ids, ∃ c e, s.heap[id]? = some c ∧
        (c.updateFunc c.calls).2 = some e) →
      ((ids.foldl UpdateAt s).heap).map (fun c => c.value) =
        s.heap.map (fun c => c.value)
  | [], s, _, _ => rfl
  | j :: t, s, hnd, hfail => by
      rw [List.foldl_cons]
      obtain ⟨c, e, hc, he⟩ := hfail j (by simp)
      have hstep : (UpdateAt s j).heap.map (fun c => c.value) =
          s.heap.map (fun c => c.value) :=
        updateNth_map_value_of_err s.heap j c e hc he
      have hnd2 : t.Nodup := (List.nodup_cons.mp hnd).2
      have hjt : j ∉ t := (List.nodup_cons.mp hnd).1
      have hfail2 : ∀ id ∈ t, ∃ c e, (UpdateAt s j).heap[id]? = some c ∧
          (c.updateFunc c.calls).2 = some e := by
        intro id hid
        obtain ⟨c2, e2, hc2, he2⟩ := hfail id (by simp [hid])
        refine ⟨c2, e2, ?_, he2⟩
        rw [show (UpdateAt s j).heap = updateNth s.heap j from rfl,
          updateNth_getElem?_ne s.heap j id (fun h2 => hjt (h2 ▸ hid))]
        exact hc2
      rw [foldl_UpdateAt_values_of_err t (UpdateAt s j) hnd2 hfail2, hstep]

theorem getElem?_append_singleton :
    ∀ (l : List (ReCached T E)) (c : ReCached T E), (l ++ [c])[l.length]? = some c
  | [], c => by simp
  | d :: t, c => by simp [getElem?_append_singleton t c]

/-- Claim C1: a producer invocation that returns a non-nil error leaves
the stored value unchanged (callers of `Get` observe the old value), and
a fan-out over registered caches whose producers all fail still completes
with every stored value and the registry unchanged — no error is surfaced
to any caller of `Get`, `Update`, or `GlobalCacheUpdate`, none of which
has an error channel in its signature. -/
theorem producer_error_is_invisible :
    (∀ (r : ReCached T E) (e : E), (r.updateFunc r.calls).2 = some e →
      (Update r).value = r.value ∧ (Get (Update r)).2 = (Get r).2) ∧
    (∀ (s : Sys T E), s.registry.Nodup →
      (∀ id ∈ s.registry, ∃ c e, s.heap[id]? = some c ∧
        (c.updateFunc c.calls).2 = some e) →
      (GlobalCacheUpdate s).heap.map (fun c => c.value) =
          s.heap.map (fun c => c.value) ∧
        (GlobalCacheUpdate s).registry = s.registry) := by
  constructor
  · intro r e h
    exact ⟨Update_value_of_err r e h, Update_value_of_err r e h⟩
  · intro s hnd hfail
    exact ⟨foldl_UpdateAt_values_of_err s.registry s hnd hfail,
      foldl_UpdateAt_registry s.registry s⟩

/-- Witness for C1 at the concrete cache `cErr` and system `sysErr`. -/
theorem producer_error_is_invisible_witness :
    (Update cErr).value = cErr.value ∧
      (GlobalCacheUpdate sysErr).heap.map (fun c => c.value) =
        sysErr.heap.map (fun c => c.value) :=
  ⟨(producer_error_is_invisible.1 cErr () rfl).1,
   (producer_error_is_invisible.2 sysErr (by simp [sysErr])
      (by
        intro id hid
        simp [sysErr] at hid
        subst hid
        exact ⟨cErr, (), by simp [sysErr], rfl⟩)).1⟩

/-- Claim C2: an `Update` whose producer invocation returns `(v, nil)`
stores exactly `v`; one whose invocation returns an error leaves the
stored value identical to before the call. -/
theorem update_stores_exact_result (r : ReCached T E) :
    (∀ v, r.updateFunc r.calls = (v, none) → (Update r).value = v) ∧
    (∀ v e, r.updateFunc r.calls = (v, some e) → (Update r).value = r.value) := by
  constructor
  · intro v h
    exact Update_value_of_ok r v h
  · intro v e h
    exact Update_value_of_err r e (by rw [h])

/-- Witness for C2 at the concrete caches `cOk` and `cErr`. -/
theorem update_stores_exact_result_witness :
    (Update cOk).value = 7 ∧ (Update cErr).value = 4 :=
  ⟨(update_stores_exact_result cOk).1 7 rfl,
   (update_stores_exact_result cErr).2 9 () rfl⟩

/-- Claim C3: the value read from the cache handle returned by `New` is
the result of the first producer invocation when that invocation
succeeded, and the zero value of `T` otherwise. -/
theorem get_after_new [Inhabited T] (s : Sys T E) (p : Nat)
    (f : Nat → T × Option E) :
    (∀ v, f 0 = (v, none) →
      ((New s p f).2.heap[(New s p f).1]?).map (fun c => (Get c).2) = some v) ∧
    (∀ v e, f 0 = (v, some e) →
      ((New s p f).2.heap[(New s p f).1]?).map (fun c => (Get c).2) =
        some (default : T)) := by
  have h1 : (New s p f).2.heap[(New s p f).1]? =
      some (Update (newCache p f)) :=
    getElem?_append_singleton s.heap _
  constructor
  · intro v hv
    rw [h1]
    simp only [Option.map_some', Option.some.injEq, Get]
    exact Update_value_of_ok (newCache p f) v (by simpa [newCache] using hv)
  · intro v e hv
    rw [h1]
    simp only [Option.map_some', Option.some.injEq, Get]
    have h2 : (Update (newCache p f)).value = (newCache p f).value :=
      Update_value_of_err (newCache p f) e (by simp [newCache, hv])
    rw [h2]
    rfl

/-- Witness for C3: a succeeding first invocation stores `7`, a failing
one leaves the zero value `0`. -/
theorem get_after_new_witness :
    ((New sysNil 5 (fun n => (n + 7, (none : Option Unit)))).2.heap[
        (New sysNil 5 (fun n => (n + 7, (none : Option Unit)))).1]?).map
      (fun c => (Get c).2) = some 7 ∧
    ((New sysNil 5 (fun _ => ((3 : Nat), some ()))).2.heap[
        (New sysNil 5 (fun _ => ((3 : Nat), some ()))).1]?).map
      (fun c => (Get c).2) = some 0 :=
  ⟨(get_after_new sysNil 5 (fun n => (n + 7, none))).1 7 rfl,
   (get_after_new sysNil 5 (fun _ => ((3 : Nat), some ()))).2 3 () rfl⟩

/-- Claim C4: `New` is a total function whose result is exactly: the heap
extended with the zero-initialised cache after one synchronous refresh
attempt, and the registry with the new handle appended; the new cache has
performed exactly one producer invocation; and the source-order steps of
`New` place the synchronous refresh before starting the background loop,
which precedes the registry append, which precedes the return. -/
theorem new_order_and_effect [Inhabited T] (s : Sys T E) (p : Nat)
    (f : Nat → T × Option E) :
    New s p f =
      (s.heap.length,
        { heap := s.heap ++ [Update (newCache p f)],
          registry := s.registry ++ [s.heap.length] }) ∧
    ((New s p f).2.heap[(New s p f).1]?).map (fun c => c.calls) = some 1 ∧
    newSteps.indexOf NewStep.syncRefresh < newSteps.indexOf NewStep.startLoop ∧
    newSteps.indexOf NewStep.startLoop < newSteps.indexOf NewStep.register ∧
    newSteps.indexOf NewStep.register < newSteps.indexOf NewStep.ret := by
  have h1 : (New s p f).2.heap[(New s p f).1]? =
      some (Update (newCache p f)) :=
    getElem?_append_singleton s.heap _
  refine ⟨rfl, ?_, by decide, by decide, by decide⟩
  rw [h1]
  simp [Update_calls, newCache]

/-- Claim C5: a fan-out over a registry of valid handles preserves the
number of caches, performs on every cache exactly one `Update` per
occurrence of its handle in the registry (so exactly one each when each
cache is registered once, with no coalescing), and in total performs
exactly one producer invocation per registry entry. -/
theorem fanout_one_update_per_cache (s : Sys T E)
    (hvalid : ∀ id ∈ s.registry, id < s.heap.length) :
    (GlobalCacheUpdate s).heap.length = s.heap.length ∧
    (∀ id c, s.heap[id]? = some c →
      ((GlobalCacheUpdate s).heap[id]?).map (fun d => d.calls) =
        some (c.calls + s.registry.count id)) ∧
    sumCalls (GlobalCacheUpdate s).heap = sumCalls s.heap + s.registry.length := by
  refine ⟨foldl_UpdateAt_heap_length s.registry s, ?_,
    foldl_UpdateAt_sumCalls s.registry s hvalid⟩
  intro id c hc
  obtain ⟨d, hd, hcalls⟩ := foldl_UpdateAt_calls s.registry s id c hc
  rw [show (GlobalCacheUpdate s).heap = (s.registry.foldl UpdateAt s).heap
    from rfl, hd]
  simp [hcalls]

/-- Witness for C5 at the one-cache system `sysOne`. -/
theorem fanout_one_update_per_cache_witness :
    sumCalls (GlobalCacheUpdate sysOne).heap =
      sumCalls sysOne.heap + sysOne.registry.length :=
  (fanout_one_update_per_cache sysOne (by decide)).2.2

/-- Claim C6 counterexample: with one registered cache the event order of
`GlobalCacheUpdate` is `[rlock, spawnUpdate 0, wgWait, runlock]` — the
deferred `RUnlock` runs only at return, after `wg.Wait()`, so the
registry lock is NOT released before the entry's `Update` is invoked. -/
theorem fanout_lock_not_released_before_updates :
    ¬ releasedBeforeUpdates (globalCacheUpdateEvents [0]) := by
  unfold releasedBeforeUpdates
  decide

/-- Claim C6 amended: during `GlobalCacheUpdate` the registry's (read)
lock is released exactly once, as the final event of the call — after
every registered entry's `Update` has been invoked and after the wait for
their completion — so the registry does call into caches, and does wait
for their refreshes, while holding its own lock. -/
theorem fanout_lock_released_last (registry : List Nat) :
    ∃ tr₀, globalCacheUpdateEvents registry = tr₀ ++ [RegEvent.runlock] ∧
      RegEvent.runlock ∉ tr₀ ∧
      (∀ id, RegEvent.spawnUpdate id ∈ tr₀ ↔ id ∈ registry) ∧
      tr₀.getLast? = some RegEvent.wgWait := by
  refine ⟨RegEvent.rlock ::
    (registry.map RegEvent.spawnUpdate ++ [RegEvent.wgWait]), ?_, ?_, ?_, ?_⟩
  · simp [globalCacheUpdateEvents]
  · simp [List.mem_map]
  · intro id
    simp [List.mem_map]
  · rw [show RegEvent.rlock ::
        (registry.map RegEvent.spawnUpdate ++ [RegEvent.wgWait]) =
        (RegEvent.rlock :: registry.map RegEvent.spawnUpdate) ++
          [RegEvent.wgWait] by simp]
    exact List.getLast?_concat _

/-- Claim C7: once the cancellation event arrives, the background loop
terminates and the remaining events (any further elapsed time and timer
ticks) have no effect on the cache; a manual `Update` remains callable
and, on producer success, still stores the produced value. -/
theorem cancellation_is_terminal (r : ReCached T E)
    (pre post : List LoopEvent) :
    updateLoop (pre ++ LoopEvent.ctxDone :: post) r = updateLoop pre r ∧
    (∀ v, r.updateFunc r.calls = (v, none) → (Update r).value = v) := by
  constructor
  · induction pre generalizing r with
    | nil => rfl
    | cons ev t ih =>
        cases ev with
        | ctxDone => rfl
        | tick =>
            simp only [List.cons_append, updateLoop]
            exact ih (Update r)
  · intro v h
    exact Update_value_of_ok r v h

/-- Witness for C7 at the concrete cache `cOk`: the tick after
cancellation is discarded, and a manual update still stores `7`. -/
theorem cancellation_is_terminal_witness :
    updateLoop [LoopEvent.tick, LoopEvent.ctxDone, LoopEvent.tick] cOk =
        updateLoop [LoopEvent.tick] cOk ∧
      (Update cOk).value = 7 :=
  ⟨(cancellation_is_terminal cOk [LoopEvent.tick] [LoopEvent.tick]).1,
   (cancellation_is_terminal cOk [] []).2 7 rfl⟩

/-- Claim C8: `New` appends exactly one handle to the registry, `Get` and
`Update` (through a handle) and `GlobalCacheUpdate` leave the registry
exactly as it was — nothing is ever removed or reordered — and every
handle present before a `New` is still present after it. -/
theorem registry_monotone [Inhabited T] (s : Sys T E) (p : Nat)
    (f : Nat → T × Option E) (id : Nat) (c : ReCached T E) :
    (New s p f).2.registry = s.registry ++ [s.heap.length] ∧
    (Get c).1 = c ∧
    (UpdateAt s id).registry = s.registry ∧
    (GlobalCacheUpdate s).registry = s.registry ∧
    (∀ a ∈ s.registry, a ∈ (New s p f).2.registry) := by
  refine ⟨rfl, rfl, rfl, foldl_UpdateAt_registry s.registry s, ?_⟩
  intro a ha
  show a ∈ s.registry ++ [s.heap.length]
  exact List.mem_append_left _ ha

/-- Witness for C8 at the one-cache system `sysOne`. -/
theorem registry_monotone_witness :
    (New sysOne 5 (fun n => (n + 1, (none : Option Unit)))).2.registry =
        sysOne.registry ++ [sysOne.heap.length] ∧
      (0 : Nat) ∈ (New sysOne 5 (fun n => (n + 1, (none : Option Unit)))).2.registry :=
  ⟨(registry_monotone sysOne 5 (fun n => (n + 1, none)) 0 cOk).1,
   (registry_monotone sysOne 5 (fun n => (n + 1, none)) 0 cOk).2.2.2.2 0
     (by decide)⟩

/-- Claim C9: `Get` returns the currently stored value, returns the cache
state — value, period, producer stream, and producer-invocation count —
entirely unchanged (in particular it never invokes the producer), and two
consecutive `Get` calls with no intervening refresh return equal values. -/
theorem get_pure_frame (r : ReCached T E) :
    (Get r).2 = r.value ∧ (Get r).1 = r ∧
    (Get r).1.calls = r.calls ∧
    (Get ((Get r).1)).2 = (Get r).2 :=
  ⟨rfl, rfl, rfl, rfl⟩

/-- Claim C10: when the producer fails, the value it returns alongside
the error is discarded entirely — two caches in identical observable
states whose failing producers return different values (and different
errors) end in identical observable states after `Update`. -/
theorem update_err_ignores_returned_value (r₁ r₂ : ReCached T E)
    (v₁ v₂ : T) (e₁ e₂ : E)
    (hv : r₁.value = r₂.value) (hp : r₁.period = r₂.period)
    (hc : r₁.calls = r₂.calls)
    (h₁ : r₁.updateFunc r₁.calls = (v₁, some e₁))
    (h₂ : r₂.updateFunc r₂.calls = (v₂, some e₂)) :
    (Update r₁).value = (Update r₂).value ∧
    (Update r₁).calls = (Update r₂).calls ∧
    (Update r₁).period = (Update r₂).period := by
  refine ⟨?_, ?_, ?_⟩
  · rw [Update_value_of_err r₁ e₁ (by rw [h₁]),
      Update_value_of_err r₂ e₂ (by rw [h₂]), hv]
  · rw [Update_calls, Update_calls, hc]
  · rw [Update_period, Update_period, hp]

/-- Witness for C10: `cErr` and `cErr2` differ only in the value their
failing producers return (9 versus 123), and `Update` leaves them in
identical observable states. -/
theorem update_err_ignores_returned_value_witness :
    (Update cErr).value = (Update cErr2).value ∧
      (Update cErr).calls = (Update cErr2).calls ∧
      (Update cErr).period = (Update cErr2).period :=
  update_err_ignores_returned_value cErr cErr2 9 123 () () rfl rfl rfl rfl rfl

end Recached
